import Mathlib

/-!
Shallow embedding of the pylons_sdk test-harness core: the modified
testing context `T` of package evtesting (structured fields, log level,
dual logging backend, failure-event dispatch) and the CLI helpers of
package inttest (argument rewriting for the external pylonsd command,
block-height polling, txhash extraction).

Conventions of the embedding:
* Go `log.Fields` (a map from string to interface values) is modelled as an
  association list with values rendered to strings; the Go map's iteration
  order is unspecified, the list order is the determinisation.
* Native `testing.T` handles are abstract numeric identifiers.
* Logging methods return the list of observable events they emit (calls
  into the structured logger or into the native handle), in order; a
  suppressed call returns the empty list.
* The process-wide listener table is a predicate saying which event names
  are registered; `invocations` counts callback runs over an event trace.
* Fallible Go code (out-of-range slice indexing, i.e. a runtime panic) is
  modelled with `Option`: `none` means the code panics.
* `rand.Intn n` is modelled by `pick % n` for an arbitrary `pick`, which is
  surjective onto the generator's outcomes.
-/

namespace PylonsSdk

namespace Logrus

/-- Severity ordinal of the structured logger's PanicLevel. -/
def PanicLevel : Nat := 0

/-- Severity ordinal of the structured logger's FatalLevel. -/
def FatalLevel : Nat := 1

/-- Severity ordinal of the structured logger's ErrorLevel. -/
def ErrorLevel : Nat := 2

/-- Severity ordinal of the structured logger's WarnLevel. -/
def WarnLevel : Nat := 3

/-- Severity ordinal of the structured logger's InfoLevel. -/
def InfoLevel : Nat := 4

/-- Severity ordinal of the structured logger's DebugLevel. -/
def DebugLevel : Nat := 5

/-- Severity ordinal of the structured logger's TraceLevel. -/
def TraceLevel : Nat := 6

end Logrus

namespace Evtesting

/-- Fields is a type to manage json based output: an association list from
keys to rendered values, standing in for the Go map. -/
abbrev Fields := List (String × String)

/-- A call-stack frame as captured by getFrame and reported by
printCallerLine. -/
structure Frame where
  file : String
  line : Nat
  function : String
deriving DecidableEq, Repr

/-- T is a modified testing.T: the native handle (abstract id), the
backend-selection flag useLogPkg, the structured fields and the log
level threshold. -/
structure T where
  origin : Nat
  useLogPkg : Bool
  fields : Fields
  logLevel : Nat
deriving DecidableEq, Repr

/-- Observable events emitted by the wrapper's methods, in program order:
a dispatch-table lookup, a caller-frame capture, an emission through the
structured logger (with its severity and attached fields), a structured
fatal emission, a native-handle log line, a native fatal stop, and a
require-style assertion. -/
inductive Event where
  | dispatch (name : String)
  | captureCaller (fr : Frame)
  | logrusEmit (level : Nat) (fields : Fields) (msg : String)
  | logrusFatal (fields : Fields) (msg : String)
  | logrusFatalf (fields : Fields) (fmtStr : String) (args : String)
  | originLog (msg : String)
  | originFatal (args : String)
  | originFatalf (fmtStr : String) (args : String)
  | requireTrue (value : Bool)
deriving DecidableEq, Repr

/-- NewT is function returns modified T from original testing.T; a nil
origin is modelled as none, and the fresh throwaway handle built in that
case gets id 0. -/
def NewT (origin : Option Nat) : T :=
  match origin with
  | some o => ⟨o, false, [], Logrus.DebugLevel⟩
  | none => ⟨0, true, [], Logrus.TraceLevel⟩

/-- WithFields is to manage data in json format: builds a new context whose
field set is the given one and whose origin, backend flag and log level are
the receiver's. -/
def T.WithFields (t : T) (fields : Fields) : T :=
  ⟨t.origin, t.useLogPkg, fields, t.logLevel⟩

/-- Method form of WithFields as a state transformer on the pointer
receiver: the first component is the receiver's struct after the call (the
method body contains no assignment through the receiver, so it is returned
unchanged) and the second is the derived context it returns. -/
def T.WithFieldsM (t : T) (fields : Fields) : T × T :=
  (t, t.WithFields fields)

/-- RunChild is the fresh context constructed inside Run for a spawned
sub-test: bound to the sub-test's own native handle, inheriting the
parent's fields, backend flag and log level. -/
def T.RunChild (t : T) (subOrigin : Nat) : T :=
  ⟨subOrigin, t.useLogPkg, t.fields, t.logLevel⟩

/-- DispatchEvent process events that are related to the event: the lookup
in the process-wide listener table is recorded as a trace event; whether a
callback actually runs depends on the table, see invocations. -/
def T.DispatchEvent (_ : T) (event : String) : List Event :=
  [Event.dispatch event]

/-- FormatFields renders a single log entry: one " key=value" segment per
field, in the field list's order (the Go map iteration order is
unspecified). -/
def T.FormatFields (t : T) : String :=
  t.fields.foldl (fun acc kv => acc ++ " " ++ kv.1 ++ "=" ++ kv.2) ""

/-- Text rendered by printCallerLine for a frame: "file:line function". -/
def frameText (fr : Frame) : String :=
  fr.file ++ ":" ++ toString fr.line ++ " " ++ fr.function

/-- Fields attached by printCallerLine for a frame. -/
def callerFields (fr : Frame) : Fields :=
  [("file_line", fr.file ++ ":" ++ toString fr.line), ("func", fr.function)]

/-- printCallerLine captures the caller's frame via getFrame and emits it:
through the structured logger at trace severity in standalone mode, or as a
native log line of the caller fields otherwise. -/
def T.printCallerLine (t : T) (fr : Frame) : List Event :=
  Event.captureCaller fr ::
    (if t.useLogPkg then
      [Event.logrusEmit Logrus.TraceLevel (callerFields fr) (frameText fr)]
    else
      [Event.originLog (T.FormatFields (t.WithFields (callerFields fr)))])

/-- Fatal is a modified Fatal: dispatch the FAIL event, print the caller
line, then either a structured fatal emission or a native log line of the
fields followed by the native fatal stop. -/
def T.Fatal (t : T) (fr : Frame) (args : String) : List Event :=
  t.DispatchEvent "FAIL" ++ t.printCallerLine fr ++
    (if t.useLogPkg then [Event.logrusFatal t.fields args]
    else [Event.originLog t.FormatFields, Event.originFatal args])

/-- Fatalf is a modified Fatalf: same shape as Fatal with a format string. -/
def T.Fatalf (t : T) (fr : Frame) (fmtStr : String) (args : String) : List Event :=
  t.DispatchEvent "FAIL" ++ t.printCallerLine fr ++
    (if t.useLogPkg then [Event.logrusFatalf t.fields fmtStr args]
    else [Event.originLog t.FormatFields, Event.originFatalf fmtStr args])

/-- MustTrue validate if value is true. -/
def T.MustTrue (t : T) (fr : Frame) (value : Bool) : List Event :=
  (if value = false then t.DispatchEvent "FAIL" else []) ++
    (if t.useLogPkg then
      (if value = false then
        t.printCallerLine fr ++ [Event.logrusFatal [] "MustTrue validation failure"]
      else [])
    else [Event.requireTrue value])

/-- MustNil validate if value is nil: the error is modelled as an Option
(none meaning nil). On a non-nil error it dispatches FAIL, then in
standalone mode prints the caller line and calls Fatal on a context whose
fields carry the error; otherwise it delegates to the require assertion. -/
def T.MustNil (t : T) (fr : Frame) (err : Option String) : List Event :=
  match err with
  | none => []
  | some e =>
    t.DispatchEvent "FAIL" ++
      (if t.useLogPkg then
        t.printCallerLine fr ++
          (t.WithFields [("error", e)]).Fatal fr "MustNil validation failure"
      else [Event.requireTrue false])

/-- Log is modified Log: no level check; emits at info severity through the
structured logger, or the rendered fields and the message through the
native handle. -/
def T.Log (t : T) (args : String) : List Event :=
  if t.useLogPkg then [Event.logrusEmit Logrus.InfoLevel t.fields args]
  else [Event.originLog t.FormatFields, Event.originLog args]

/-- Info is modified Info: suppressed when the threshold is below
InfoLevel; no caller capture. -/
def T.Info (t : T) (args : String) : List Event :=
  if t.logLevel < Logrus.InfoLevel then []
  else if t.useLogPkg then [Event.logrusEmit Logrus.InfoLevel t.fields args]
  else [Event.originLog t.FormatFields, Event.originLog args]

/-- Warn is modified Info (sic, per the source comment): suppressed when
the threshold is below WarnLevel; captures the caller line. -/
def T.Warn (t : T) (fr : Frame) (args : String) : List Event :=
  if t.logLevel < Logrus.WarnLevel then []
  else
    t.printCallerLine fr ++
      (if t.useLogPkg then [Event.logrusEmit Logrus.WarnLevel t.fields args]
      else [Event.originLog t.FormatFields, Event.originLog args])

/-- Trace is modified Trace: suppressed when the threshold is below
TraceLevel; captures the caller line. -/
def T.Trace (t : T) (fr : Frame) (args : String) : List Event :=
  if t.logLevel < Logrus.TraceLevel then []
  else
    t.printCallerLine fr ++
      (if t.useLogPkg then [Event.logrusEmit Logrus.TraceLevel t.fields args]
      else [Event.originLog t.FormatFields, Event.originLog args])

/-- Debug is modified Debug: suppressed when the threshold is below
DebugLevel; captures the caller line. -/
def T.Debug (t : T) (fr : Frame) (args : String) : List Event :=
  if t.logLevel < Logrus.DebugLevel then []
  else
    t.printCallerLine fr ++
      (if t.useLogPkg then [Event.logrusEmit Logrus.DebugLevel t.fields args]
      else [Event.originLog t.FormatFields, Event.originLog args])

/-- invocations counts how many times the callback registered under the
given name runs during a trace: DispatchEvent invokes a listener if and
only if the name is registered in the table. -/
def invocations (listeners : String → Bool) (name : String) (tr : List Event) : Nat :=
  (tr.filter (fun e =>
    match e with
    | Event.dispatch n => n == name && listeners n
    | _ => false)).length

/-- Quiet standalone context used as a concrete instance: threshold
PanicLevel excludes every logging severity. -/
def tQuiet : T := ⟨0, true, [], Logrus.PanicLevel⟩

/-- Standalone-mode context with the default standalone threshold. -/
def tStandalone : T := ⟨0, true, [], Logrus.TraceLevel⟩

/-- A concrete caller frame. -/
def frame0 : Frame := ⟨"basic.go", 42, "TestMain"⟩

/-- Listener table with exactly the FAIL event registered. -/
def failOnly : String → Bool := fun s => s == "FAIL"

end Evtesting

namespace Inttest

/-- SplitComma models Go strings.Split(s, ","): splits at every comma and
always returns at least one (possibly empty) piece. The first list is the
remaining input, the second the reversed current piece. -/
def SplitCommaAux : List Char → List Char → List String
  | [], acc => [⟨acc.reverse⟩]
  | c :: cs, acc =>
    if c = ',' then (⟨acc.reverse⟩ : String) :: SplitCommaAux cs []
    else SplitCommaAux cs (c :: acc)

/-- SplitComma models Go strings.Split(s, ",") on the string's characters. -/
def SplitComma (s : String) : List String :=
  SplitCommaAux s.data []

/-- KeyringBackendSetup is a utility function to setup keyring backend for
the pylonsd command: appends the test keyring-backend pair for keys
subcommands, tx sign, and tx pylons create-account. Out-of-range slice
indexing (a Go panic) is modelled as none. -/
def KeyringBackendSetup (args : List String) : Option (List String) :=
  match args with
  | [] => some []
  | a0 :: rest =>
    let newArgs := (a0 :: rest) ++ ["--keyring-backend", "test"]
    if a0 = "keys" then some newArgs
    else if a0 = "tx" then
      match rest with
      | [] => none
      | a1 :: rest2 =>
        if a1 = "sign" then some newArgs
        else if a1 = "pylons" then
          match rest2 with
          | [] => none
          | a2 :: _ => if a2 = "create-account" then some newArgs else some (a0 :: rest)
        else some (a0 :: rest)
    else some (a0 :: rest)

/-- NodeFlagSetup is a utility function to setup the configured custom
node: when the configured node string is non-empty and the first argument
is query, tx or status, appends a node flag pair choosing among the
comma-separated entries. The configured string is passed explicitly in
place of the CLIOpts global; rand.Intn(n) is modelled by pick % n; args[0]
on an empty list is a panic, modelled as none. -/
def NodeFlagSetup (customNode : String) (pick : Nat) (args : List String) :
    Option (List String) :=
  if 0 < customNode.length then
    match args with
    | [] => none
    | a0 :: rest =>
      if a0 = "query" ∨ a0 = "tx" ∨ a0 = "status" then
        let customNodes := SplitComma customNode
        let randNode := customNodes.getD (pick % customNodes.length) ""
        some ((a0 :: rest) ++ ["--node", randNode])
      else some (a0 :: rest)
  else some args

/-- RunPylonsdArgs is the argument rewriting RunPylonsd performs before
invoking the external command: NodeFlagSetup then KeyringBackendSetup. The
subprocess invocation itself is I/O and outside the embedding. -/
def RunPylonsdArgs (customNode : String) (pick : Nat) (args : List String) :
    Option (List String) :=
  (NodeFlagSetup customNode pick args).bind KeyringBackendSetup

/-- WaitTimeoutMsg is the distinct timeout error of WaitForBlockInterval. -/
def WaitTimeoutMsg : String := "You are waiting too long time for interval"

/-- PollSleepMs is the fixed spacing between polls, in milliseconds. -/
def PollSleepMs : Nat := 100

/-- WaitPoll is the retry loop of WaitForBlockInterval: fuel is the number
of remaining loop iterations (counter values strictly below 300*interval),
k the index of the next status poll. Returns the error outcome (none for
nil) paired with the total number of status polls performed. -/
def WaitPoll (status : Nat → Except String Int) (target : Int) :
    Nat → Nat → Option String × Nat
  | 0, k => (some WaitTimeoutMsg, k)
  | fuel + 1, k =>
    match status k with
    | Except.error e => (some e, k + 1)
    | Except.ok h =>
      if target ≤ h then (none, k + 1) else WaitPoll status target fuel (k + 1)

/-- WaitForBlockInterval is a function to wait until block heights flow:
status n models the n-th GetDaemonStatus result (an error string, or
SyncInfo.LatestBlockHeight). The first poll fixes the starting height; the
loop then polls while counter < 300*interval. The 100ms sleep between
polls is real time, recorded by PollSleepMs. Returns the error outcome and
the number of status polls performed. -/
def WaitForBlockInterval (status : Nat → Except String Int) (interval : Int) :
    Option String × Nat :=
  match status 0 with
  | Except.error e => (some e, 1)
  | Except.ok currentBlock =>
    WaitPoll status (currentBlock + interval) (300 * interval - 1).toNat 1

/-- Status sequence whose height at the n-th poll is n: advances by one
block every poll. -/
def StatusSeqAdvance : Nat → Except String Int := fun n => Except.ok (n : Int)

/-- TxhashLit is the literal prefix of the Go regexp used by
GetTxHashFromLog. -/
def TxhashLit : List Char := "\"txhash\":".data

/-- LastQuoteCapture gives the characters strictly between the last two
double quotes of the list, if it holds at least two; this is what the
greedy suffix of the regexp captures on a line. -/
def LastQuoteCapture (cs : List Char) : Option (List Char) :=
  match cs.reverse.dropWhile (fun c => c != '"') with
  | [] => none
  | _ :: r2 =>
    let b := r2.takeWhile (fun c => c != '"')
    if r2.length = b.length then none else some b.reverse

/-- TxhashScan is the leftmost-first match of the Go regexp
"txhash":.*"(.*)" with . not matching newlines: at each position where the
literal occurs, the rest of that line must hold two more quotes and the
greedy capture is the text between the last two of them; otherwise the
scan moves one character right. -/
def TxhashScan : List Char → Option (List Char)
  | [] => none
  | c :: cs =>
    if TxhashLit.isPrefixOf (c :: cs) then
      match LastQuoteCapture (((c :: cs).drop TxhashLit.length).takeWhile (fun ch => ch != '\n')) with
      | some cap => some cap
      | none => TxhashScan cs
    else TxhashScan cs

/-- GetTxHashFromLog returns txhash from long list of transaction log: the
regexp's captured value, or the empty string when there is no match. -/
def GetTxHashFromLog (result : String) : String :=
  match TxhashScan result.data with
  | some cap => ⟨cap⟩
  | none => ""

end Inttest

/-! Theorems settling the specification claims, and their helper lemmas. -/

namespace Evtesting

/-- Claim C1 counterexample: for the concrete context whose field set holds
the key a and the field argument holding only the key b, the key a is
present in the parent's fields and absent from the argument, yet it is also
absent from the derived context's fields — refuting the copy-then-merge
claim at this input. -/
theorem withFields_drops_parent_key_cex :
    (((⟨0, false, [("a", "1")], Logrus.DebugLevel⟩ : T).WithFields
        [("b", "2")]).fields.lookup "a" = none) ∧
      ((⟨0, false, [("a", "1")], Logrus.DebugLevel⟩ : T).fields.lookup "a" = some "1") ∧
      (([("b", "2")] : Fields).lookup "a" = none) := by
  decide

/-- Claim C1 (amended): the context returned by WithFields carries exactly
the argument field set: the parent's entries are not copied or merged, so a
key of the parent absent from the argument is absent from the derived
context. -/
theorem withFields_replaces_fields (t : T) (f : Fields) :
    (t.WithFields f).fields = f := rfl

/-- Claim C5: WithFields does not mutate the receiver: the receiver's
state after the call (first component of the method's state transformer)
carries its original field set, so a base context can be reused. -/
theorem withFields_preserves_receiver_fields (t : T) (f : Fields) :
    (t.WithFieldsM f).1.fields = t.fields := rfl

/-- Claim C6: context derivation preserves the backend-selection flag and
the log level: both the context returned by WithFields and the child
context constructed inside Run carry exactly the parent's useLogPkg and
logLevel. -/
theorem derivation_preserves_mode_and_level (t : T) (f : Fields) (o : Nat) :
    (t.WithFields f).useLogPkg = t.useLogPkg ∧
      (t.WithFields f).logLevel = t.logLevel ∧
      (t.RunChild o).useLogPkg = t.useLogPkg ∧
      (t.RunChild o).logLevel = t.logLevel :=
  ⟨rfl, rfl, rfl, rfl⟩

/-- Claim C7: Fatal and Fatalf, in both modes and for every payload, first
dispatch the FAIL event, then capture the caller's location, and only then
emit the rendered fields and raise the failure — the structured fatal in
standalone mode, the native log line plus native fatal stop otherwise. -/
theorem fatal_dispatch_then_capture_order (t : T) (fr : Frame) (fmtStr args : String) :
    t.Fatal fr args =
        Event.dispatch "FAIL" :: Event.captureCaller fr ::
          (if t.useLogPkg then
            [Event.logrusEmit Logrus.TraceLevel (callerFields fr) (frameText fr),
              Event.logrusFatal t.fields args]
          else
            [Event.originLog ((t.WithFields (callerFields fr)).FormatFields),
              Event.originLog t.FormatFields,
              Event.originFatal args]) ∧
      t.Fatalf fr fmtStr args =
        Event.dispatch "FAIL" :: Event.captureCaller fr ::
          (if t.useLogPkg then
            [Event.logrusEmit Logrus.TraceLevel (callerFields fr) (frameText fr),
              Event.logrusFatalf t.fields fmtStr args]
          else
            [Event.originLog ((t.WithFields (callerFields fr)).FormatFields),
              Event.originLog t.FormatFields,
              Event.originFatalf fmtStr args]) := by
  cases h : t.useLogPkg <;>
    simp [T.Fatal, T.Fatalf, T.printCallerLine, T.DispatchEvent, h]

/-- Claim C2 counterexample: Log's fixed severity is Info (it emits via
Infoln), yet on a concrete standalone context whose threshold WarnLevel
excludes Info the call still produces observable output, so Log is not
suppressed by the threshold. -/
theorem log_not_suppressed_cex :
    ((⟨0, true, [], Logrus.WarnLevel⟩ : T).logLevel < Logrus.InfoLevel) ∧
      (⟨0, true, [], Logrus.WarnLevel⟩ : T).Log "message" ≠ [] := by
  decide

/-- Claim C2 (amended): Info, Warn, Trace and Debug are suppressed with
zero observable output whenever the configured threshold excludes their
fixed severity, in both modes; Log, however, performs no threshold check
and always emits. -/
theorem level_threshold_suppression (t : T) (fr : Frame) (args : String) :
    (t.logLevel < Logrus.InfoLevel → t.Info args = []) ∧
      (t.logLevel < Logrus.WarnLevel → t.Warn fr args = []) ∧
      (t.logLevel < Logrus.TraceLevel → t.Trace fr args = []) ∧
      (t.logLevel < Logrus.DebugLevel → t.Debug fr args = []) ∧
      t.Log args ≠ [] := by
  refine ⟨fun h => ?_, fun h => ?_, fun h => ?_, fun h => ?_, ?_⟩
  · simp [T.Info, h]
  · simp [T.Warn, h]
  · simp [T.Trace, h]
  · simp [T.Debug, h]
  · cases h : t.useLogPkg <;> simp [T.Log, h]

/-- Claim C2 witness: the amended theorem applied at the quiet standalone
context, whose PanicLevel threshold excludes every severity. -/
theorem level_threshold_suppression_witness :
    (tQuiet.logLevel < Logrus.InfoLevel ∧ tQuiet.Info "m" = []) ∧
      (tQuiet.logLevel < Logrus.WarnLevel ∧ tQuiet.Warn frame0 "m" = []) ∧
      (tQuiet.logLevel < Logrus.TraceLevel ∧ tQuiet.Trace frame0 "m" = []) ∧
      (tQuiet.logLevel < Logrus.DebugLevel ∧ tQuiet.Debug frame0 "m" = []) ∧
      tQuiet.Log "m" ≠ [] :=
  ⟨⟨by decide, (level_threshold_suppression tQuiet frame0 "m").1 (by decide)⟩,
    ⟨by decide, (level_threshold_suppression tQuiet frame0 "m").2.1 (by decide)⟩,
    ⟨by decide, (level_threshold_suppression tQuiet frame0 "m").2.2.1 (by decide)⟩,
    ⟨by decide, (level_threshold_suppression tQuiet frame0 "m").2.2.2.1 (by decide)⟩,
    (level_threshold_suppression tQuiet frame0 "m").2.2.2.2⟩

/-- Claim C9: a single MustNil call on a non-nil error in standalone mode
runs the callback registered under the FAIL event exactly twice — once from
MustNil's own dispatch and once from the Fatal call it makes to emit the
validation-failure record. -/
theorem mustNil_double_dispatch (listeners : String → Bool) (t : T) (fr : Frame)
    (e : String) (hL : listeners "FAIL" = true) (hMode : t.useLogPkg = true) :
    invocations listeners "FAIL" (t.MustNil fr (some e)) = 2 := by
  simp [T.MustNil, T.Fatal, T.printCallerLine, T.DispatchEvent, T.WithFields,
    invocations, hMode, hL]

/-- Claim C9 witness: the theorem applied at a concrete standalone context,
error and listener table registering exactly FAIL. -/
theorem mustNil_double_dispatch_witness :
    failOnly "FAIL" = true ∧ tStandalone.useLogPkg = true ∧
      invocations failOnly "FAIL" (tStandalone.MustNil frame0 (some "boom")) = 2 :=
  ⟨rfl, rfl, mustNil_double_dispatch failOnly tStandalone frame0 "boom" rfl rfl⟩

end Evtesting

namespace Inttest

/-- Claim C10 counterexample: KeyringBackendSetup on the singleton tx list
reads args[1] out of range, on the tx pylons pair it reads args[2] out of
range, and NodeFlagSetup with the default non-empty node string reads
args[0] of the empty list out of range — each a Go panic, modelled as
none — so the functions are not total on every argument list. -/
theorem setup_totality_cex :
    KeyringBackendSetup ["tx"] = none ∧
      KeyringBackendSetup ["tx", "pylons"] = none ∧
      NodeFlagSetup "tcp://localhost:26657" 0 [] = none := by
  decide

/-- Claim C10 (amended): KeyringBackendSetup returns a result without
out-of-range access on every list except those beginning with tx whose
indexed positions are missing (length one, or tx pylons with nothing
after); NodeFlagSetup does so on every list except the empty one when the
configured node string is non-empty. -/
theorem setup_totality (args : List String) (customNode : String) (pick : Nat)
    (hk : ∀ rest, args = "tx" :: rest →
      rest ≠ [] ∧ ∀ rest2, rest = "pylons" :: rest2 → rest2 ≠ [])
    (hn : args = [] → customNode = "") :
    (KeyringBackendSetup args).isSome ∧ (NodeFlagSetup customNode pick args).isSome := by
  constructor
  · cases args with
    | nil => simp [KeyringBackendSetup]
    | cons a0 rest =>
      by_cases h0 : a0 = "keys"
      · simp [KeyringBackendSetup, h0]
      · by_cases h1 : a0 = "tx"
        · subst h1
          obtain ⟨hne, hpy⟩ := hk rest rfl
          cases rest with
          | nil => exact absurd rfl hne
          | cons a1 rest2 =>
            by_cases hs : a1 = "sign"
            · simp [KeyringBackendSetup, hs]
            · by_cases hp : a1 = "pylons"
              · subst hp
                have h2 := hpy rest2 rfl
                cases rest2 with
                | nil => exact absurd rfl h2
                | cons a2 rest3 =>
                  by_cases hc : a2 = "create-account" <;>
                    simp [KeyringBackendSetup, hs, hc]
              · simp [KeyringBackendSetup, hs, hp]
        · simp [KeyringBackendSetup, h0, h1]
  · cases args with
    | nil =>
      have hcn := hn rfl
      subst hcn
      rw [NodeFlagSetup, if_neg (by decide : ¬ 0 < ("" : String).length)]
      rfl
    | cons a0 rest =>
      rw [NodeFlagSetup]
      by_cases hcn : 0 < customNode.length
      · rw [if_pos hcn]
        by_cases hq : a0 = "query" ∨ a0 = "tx" ∨ a0 = "status" <;> simp [hq]
      · rw [if_neg hcn]
        rfl

/-- Claim C10 witness: the amended theorem applied at a keys list, for
which both rewriting functions return a result. -/
theorem setup_totality_witness :
    (KeyringBackendSetup ["keys", "show"]).isSome ∧
      (NodeFlagSetup "a,b" 3 ["keys", "show"]).isSome :=
  setup_totality ["keys", "show"] "a,b" 3
    (by
      intro rest h
      injection h with h1 _
      exact absurd h1 (by decide))
    (by
      intro h
      exact absurd h (List.cons_ne_nil _ _))

/-- Go strings.Split always yields at least one piece. -/
theorem splitCommaAux_ne_nil : ∀ cs acc, SplitCommaAux cs acc ≠ [] := by
  intro cs
  induction cs with
  | nil => intro acc; simp [SplitCommaAux]
  | cons c cs ih =>
    intro acc
    rw [SplitCommaAux]
    by_cases hc : c = ','
    · rw [if_pos hc]; simp
    · rw [if_neg hc]; exact ih (c :: acc)

/-- SplitComma never returns the empty list. -/
theorem splitComma_ne_nil (s : String) : SplitComma s ≠ [] :=
  splitCommaAux_ne_nil s.data []

/-- Indexing a non-empty list at an index reduced modulo its length stays
inside the list. -/
theorem getD_mod_mem (l : List String) (n : Nat) (h : l ≠ []) :
    l.getD (n % l.length) "" ∈ l := by
  have hlen : 0 < l.length := List.length_pos.mpr h
  have hm : n % l.length < l.length := Nat.mod_lt _ hlen
  rw [List.getD_eq_getElem l "" hm]
  exact List.getElem_mem hm

/-- A non-empty string has positive length. -/
theorem string_length_pos (s : String) (h : s ≠ "") : 0 < s.length := by
  cases s with
  | mk data =>
    cases data with
    | nil => exact absurd rfl h
    | cons c cs => simp [String.length]

/-- Claim C4: RunPylonsd rewrites its argument list before invoking the
external command — keys lists and the tx sign and tx pylons create-account
shapes get the keyring-backend test pair appended; query, tx and status
lists with a non-empty configured node string get exactly one node flag
pair appended whose entry is an element of the comma-separated configured
node list; and no other argument rewriting occurs (non-matching heads, and
query or status with an empty node string, come back unchanged). -/
theorem runPylonsd_arg_rewrite (customNode : String) (pick : Nat) :
    (∀ rest, RunPylonsdArgs customNode pick ("keys" :: rest) =
        some (("keys" :: rest) ++ ["--keyring-backend", "test"])) ∧
      (∀ rest, ∃ ns,
        ((customNode = "" ∧ ns = []) ∨
          (customNode ≠ "" ∧ ∃ entry ∈ SplitComma customNode, ns = ["--node", entry])) ∧
        RunPylonsdArgs customNode pick ("tx" :: "sign" :: rest) =
          some (("tx" :: "sign" :: rest) ++ ns ++ ["--keyring-backend", "test"])) ∧
      (∀ rest, ∃ ns,
        ((customNode = "" ∧ ns = []) ∨
          (customNode ≠ "" ∧ ∃ entry ∈ SplitComma customNode, ns = ["--node", entry])) ∧
        RunPylonsdArgs customNode pick ("tx" :: "pylons" :: "create-account" :: rest) =
          some (("tx" :: "pylons" :: "create-account" :: rest) ++ ns ++
            ["--keyring-backend", "test"])) ∧
      (∀ a0 rest, (a0 = "query" ∨ a0 = "status") → customNode ≠ "" →
        ∃ entry ∈ SplitComma customNode,
          RunPylonsdArgs customNode pick (a0 :: rest) =
            some ((a0 :: rest) ++ ["--node", entry])) ∧
      (∀ a0 rest, (a0 = "query" ∨ a0 = "status") → customNode = "" →
        RunPylonsdArgs customNode pick (a0 :: rest) = some (a0 :: rest)) ∧
      (∀ a0 rest, a0 ≠ "keys" → a0 ≠ "query" → a0 ≠ "tx" → a0 ≠ "status" →
        RunPylonsdArgs customNode pick (a0 :: rest) = some (a0 :: rest)) ∧
      (∀ a1 rest, a1 ≠ "sign" → a1 ≠ "pylons" → customNode ≠ "" →
        ∃ entry ∈ SplitComma customNode,
          RunPylonsdArgs customNode pick ("tx" :: a1 :: rest) =
            some (("tx" :: a1 :: rest) ++ ["--node", entry])) := by
  have hElem : (SplitComma customNode).getD (pick % (SplitComma customNode).length) "" ∈
      SplitComma customNode :=
    getD_mod_mem (SplitComma customNode) pick (splitComma_ne_nil customNode)
  refine ⟨?_, ?_, ?_, ?_, ?_, ?_, ?_⟩
  · intro rest
    by_cases hcn : 0 < customNode.length
    · simp [RunPylonsdArgs, NodeFlagSetup, KeyringBackendSetup, hcn]
    · simp [RunPylonsdArgs, NodeFlagSetup, KeyringBackendSetup, hcn]
  · intro rest
    by_cases hcn : customNode = ""
    · refine ⟨[], Or.inl ⟨hcn, rfl⟩, ?_⟩
      subst hcn
      simp [RunPylonsdArgs, NodeFlagSetup, KeyringBackendSetup,
        (by decide : ¬ 0 < ("" : String).length)]
    · refine ⟨["--node", (SplitComma customNode).getD (pick % (SplitComma customNode).length) ""],
        Or.inr ⟨hcn, ⟨_, hElem, rfl⟩⟩, ?_⟩
      simp [RunPylonsdArgs, NodeFlagSetup, KeyringBackendSetup, string_length_pos customNode hcn]
  · intro rest
    by_cases hcn : customNode = ""
    · refine ⟨[], Or.inl ⟨hcn, rfl⟩, ?_⟩
      subst hcn
      simp [RunPylonsdArgs, NodeFlagSetup, KeyringBackendSetup,
        (by decide : ¬ 0 < ("" : String).length)]
    · refine ⟨["--node", (SplitComma customNode).getD (pick % (SplitComma customNode).length) ""],
        Or.inr ⟨hcn, ⟨_, hElem, rfl⟩⟩, ?_⟩
      simp [RunPylonsdArgs, NodeFlagSetup, KeyringBackendSetup, string_length_pos customNode hcn]
  · intro a0 rest hq hcn
    refine ⟨(SplitComma customNode).getD (pick % (SplitComma customNode).length) "", hElem, ?_⟩
    rcases hq with hq | hq <;> subst hq <;>
      simp [RunPylonsdArgs, NodeFlagSetup, KeyringBackendSetup, string_length_pos customNode hcn]
  · intro a0 rest hq hcn
    subst hcn
    rcases hq with hq | hq <;> subst hq <;>
      simp [RunPylonsdArgs, NodeFlagSetup, KeyringBackendSetup,
        (by decide : ¬ 0 < ("" : String).length)]
  · intro a0 rest h1 h2 h3 h4
    by_cases hcn : 0 < customNode.length <;>
      simp [RunPylonsdArgs, NodeFlagSetup, KeyringBackendSetup, hcn, h1, h2, h3, h4]
  · intro a1 rest hs1 hp1 hcn
    refine ⟨(SplitComma customNode).getD (pick % (SplitComma customNode).length) "", hElem, ?_⟩
    simp [RunPylonsdArgs, NodeFlagSetup, KeyringBackendSetup,
      string_length_pos customNode hcn, hs1, hp1]

/-- Claim C4 witness: the theorem applied at a keys list, which must get
the keyring-backend pair, and at a query list with a two-entry node
configuration, which must get one node pair from the list. -/
theorem runPylonsd_arg_rewrite_witness :
    RunPylonsdArgs "a,b" 0 ["keys", "show", "alice", "-a"] =
        some ["keys", "show", "alice", "-a", "--keyring-backend", "test"] ∧
      (∃ entry ∈ SplitComma "a,b",
        RunPylonsdArgs "a,b" 0 ["query", "account", "X"] =
          some ["query", "account", "X", "--node", entry]) := by
  constructor
  · have h := (runPylonsd_arg_rewrite "a,b" 0).1 ["show", "alice", "-a"]
    simpa using h
  · have h := (runPylonsd_arg_rewrite "a,b" 0).2.2.2.1 "query" ["account", "X"]
      (Or.inl rfl) (by decide)
    simpa using h

/-- Literal prefix of the regexp, in explicit character form. -/
theorem txhashLit_eq :
    TxhashLit = '"' :: 't' :: 'x' :: 'h' :: 'a' :: 's' :: 'h' :: '"' :: ':' :: [] := rfl

/-- takeWhile passes over a prefix whose elements all satisfy it. -/
theorem takeWhile_all_append (p : Char → Bool) :
    ∀ (l₁ l₂ : List Char), (∀ c ∈ l₁, p c = true) →
      (l₁ ++ l₂).takeWhile p = l₁ ++ l₂.takeWhile p := by
  intro l₁
  induction l₁ with
  | nil => intro l₂ _; simp
  | cons c cs ih =>
    intro l₂ h
    rw [List.cons_append, List.takeWhile_cons_of_pos (h c (by simp)),
      ih l₂ (fun x hx => h x (by simp [hx])), List.cons_append]

/-- dropWhile discards a prefix whose elements all satisfy it. -/
theorem dropWhile_all_append (p : Char → Bool) :
    ∀ (l₁ l₂ : List Char), (∀ c ∈ l₁, p c = true) →
      (l₁ ++ l₂).dropWhile p = l₂.dropWhile p := by
  intro l₁
  induction l₁ with
  | nil => intro l₂ _; simp
  | cons c cs ih =>
    intro l₂ h
    rw [List.cons_append, List.dropWhile_cons_of_pos (h c (by simp)),
      ih l₂ (fun x hx => h x (by simp [hx]))]

/-- The capture between the last two quotes of a line, explicitly. -/
theorem lastQuoteCapture_eq (A v B : List Char)
    (hv : ∀ c ∈ v, c ≠ '"') (hB : ∀ c ∈ B, c ≠ '"') :
    LastQuoteCapture (A ++ '"' :: v ++ '"' :: B) = some v := by
  have hpv : ∀ c ∈ v.reverse, ((fun c => c != '"') c) = true := by
    intro c hc
    rw [List.mem_reverse] at hc
    exact bne_iff_ne.mpr (hv c hc)
  have hpB : ∀ c ∈ B.reverse, ((fun c => c != '"') c) = true := by
    intro c hc
    rw [List.mem_reverse] at hc
    exact bne_iff_ne.mpr (hB c hc)
  have hrev : (A ++ '"' :: v ++ '"' :: B).reverse
      = B.reverse ++ '"' :: (v.reverse ++ '"' :: A.reverse) := by
    simp
  have hdrop : (A ++ '"' :: v ++ '"' :: B).reverse.dropWhile (fun c => c != '"')
      = '"' :: (v.reverse ++ '"' :: A.reverse) := by
    rw [hrev, dropWhile_all_append _ _ _ hpB]
    exact List.dropWhile_cons_of_neg (by simp)
  have htake : (v.reverse ++ '"' :: A.reverse).takeWhile (fun c => c != '"') = v.reverse := by
    rw [takeWhile_all_append _ _ _ hpv, List.takeWhile_cons_of_neg (by simp), List.append_nil]
  rw [LastQuoteCapture, hdrop]
  show (if (v.reverse ++ '"' :: A.reverse).length
        = ((v.reverse ++ '"' :: A.reverse).takeWhile (fun c => c != '"')).length then none
      else some (((v.reverse ++ '"' :: A.reverse).takeWhile (fun c => c != '"')).reverse))
    = some v
  rw [htake]
  have hlen : (v.reverse ++ '"' :: A.reverse).length = v.reverse.length + (A.reverse.length + 1) := by
    simp
  rw [if_neg (by rw [hlen]; omega)]
  simp

/-- The scan moves right over any character other than a double quote. -/
theorem txhashScan_cons_of_ne (c : Char) (cs : List Char) (hc : c ≠ '"') :
    TxhashScan (c :: cs) = TxhashScan cs := by
  have hb : ('"' == c) = false := beq_eq_false_iff_ne.mpr (fun hcontra => hc hcontra.symm)
  have hpre : TxhashLit.isPrefixOf (c :: cs) = false := by
    rw [txhashLit_eq]
    simp [List.isPrefixOf, hb]
  rw [TxhashScan, hpre]
  simp

/-- The scan passes over a quote-free prefix unchanged. -/
theorem txhashScan_prepend (p rest : List Char) (hp : ∀ c ∈ p, c ≠ '"') :
    TxhashScan (p ++ rest) = TxhashScan rest := by
  induction p with
  | nil => rfl
  | cons c cs ih =>
    rw [List.cons_append, txhashScan_cons_of_ne c (cs ++ rest) (hp c (by simp)),
      ih (fun x hx => hp x (by simp [hx]))]

/-- At an occurrence of the literal whose line ends with a quoted span,
the scan captures the last quoted span of the line. -/
theorem txhashScan_at_lit (mid v suf : List Char)
    (hm : ∀ c ∈ mid, c ≠ '\n') (hv1 : ∀ c ∈ v, c ≠ '"') (hv2 : ∀ c ∈ v, c ≠ '\n')
    (hs : ∀ c ∈ suf.takeWhile (fun ch => ch != '\n'), c ≠ '"') :
    TxhashScan (TxhashLit ++ (mid ++ '"' :: v ++ '"' :: suf)) = some v := by
  have hcons : TxhashLit ++ (mid ++ '"' :: v ++ '"' :: suf)
      = '"' :: ('t' :: 'x' :: 'h' :: 'a' :: 's' :: 'h' :: '"' :: ':'
          :: (mid ++ '"' :: v ++ '"' :: suf)) := by
    rw [txhashLit_eq]
    rfl
  have hpre : TxhashLit.isPrefixOf ('"' :: ('t' :: 'x' :: 'h' :: 'a' :: 's' :: 'h' :: '"' :: ':'
      :: (mid ++ '"' :: v ++ '"' :: suf))) = true := by
    rw [← hcons]
    exact List.isPrefixOf_iff_prefix.mpr ⟨_, rfl⟩
  have hdrop : (('"' :: ('t' :: 'x' :: 'h' :: 'a' :: 's' :: 'h' :: '"' :: ':'
      :: (mid ++ '"' :: v ++ '"' :: suf)))).drop TxhashLit.length
      = mid ++ '"' :: v ++ '"' :: suf := by
    rw [← hcons]
    exact List.drop_left TxhashLit _
  have htw : (mid ++ '"' :: v ++ '"' :: suf).takeWhile (fun ch => ch != '\n')
      = mid ++ '"' :: v ++ '"' :: suf.takeWhile (fun ch => ch != '\n') := by
    have hgroup : mid ++ '"' :: v ++ '"' :: suf = (mid ++ '"' :: v ++ ['"']) ++ suf := by
      simp
    have hall : ∀ c ∈ mid ++ '"' :: v ++ ['"'], ((fun ch => ch != '\n') c) = true := by
      intro c hc
      refine bne_iff_ne.mpr ?_
      rcases List.mem_append.mp hc with h1 | h1
      · rcases List.mem_append.mp h1 with h2 | h2
        · exact hm c h2
        · rcases List.mem_cons.mp h2 with h3 | h3
          · subst h3; decide
          · exact hv2 c h3
      · rcases List.mem_cons.mp h1 with h2 | h2
        · subst h2; decide
        · exact absurd h2 (List.not_mem_nil c)
    rw [hgroup, takeWhile_all_append _ _ _ hall]
    simp
  rw [hcons, TxhashScan, hpre]
  show (match LastQuoteCapture ((('"' :: ('t' :: 'x' :: 'h' :: 'a' :: 's' :: 'h' :: '"' :: ':'
      :: (mid ++ '"' :: v ++ '"' :: suf)))).drop TxhashLit.length |>.takeWhile
        (fun ch => ch != '\n')) with
    | some cap => some cap
    | none => TxhashScan ('t' :: 'x' :: 'h' :: 'a' :: 's' :: 'h' :: '"' :: ':'
        :: (mid ++ '"' :: v ++ '"' :: suf))) = some v
  rw [hdrop, htw, lastQuoteCapture_eq mid v _ hv1 hs]

/-- With no occurrence of the literal the scan finds nothing. -/
theorem txhashScan_no_occurrence : ∀ cs : List Char, ¬ TxhashLit <:+: cs →
    TxhashScan cs = none := by
  intro cs
  induction cs with
  | nil => intro _; rfl
  | cons c cs ih =>
    intro h
    have hpre : TxhashLit.isPrefixOf (c :: cs) = false := by
      cases hb : TxhashLit.isPrefixOf (c :: cs)
      · rfl
      · exact absurd (List.isPrefixOf_iff_prefix.mp hb).isInfix h
    rw [TxhashScan, hpre]
    simp only [Bool.false_eq_true, if_false]
    exact ih (fun hinf => h (List.infix_cons hinf))

/-- Claim C8 counterexample: this input contains the substring
"txhash": "ABC123", yet GetTxHashFromLog returns the later quoted span raw
rather than ABC123 — the greedy capture takes the last quoted span of the
line, so the claim fails at this input. -/
theorem getTxHashFromLog_cex :
    ("\"txhash\": \"ABC123\"").data <:+: ("\"txhash\": \"ABC123\" and \"raw\"").data ∧
      GetTxHashFromLog "\"txhash\": \"ABC123\" and \"raw\"" = "raw" ∧
      ("raw" : String) ≠ "ABC123" := by
  decide

/-- Claim C8 (amended): on input with no "txhash": substring the result is
the empty string; and after a quote-free prefix, an occurrence of
"txhash": followed on the same line by material and a final quoted span
(with nothing quoted after it on that line) yields exactly that last
quoted span — in particular "ABC123" is returned when it is the last
quoted span of the line, while any later quoted span is returned in its
place. -/
theorem getTxHashFromLog_spec (s : String) (p mid v suf : List Char)
    (hp : ∀ c ∈ p, c ≠ '"')
    (hm : ∀ c ∈ mid, c ≠ '\n')
    (hv1 : ∀ c ∈ v, c ≠ '"') (hv2 : ∀ c ∈ v, c ≠ '\n')
    (hs : ∀ c ∈ suf.takeWhile (fun ch => ch != '\n'), c ≠ '"') :
    (¬ TxhashLit <:+: s.data → GetTxHashFromLog s = "") ∧
      GetTxHashFromLog ⟨p ++ TxhashLit ++ (mid ++ '"' :: v ++ '"' :: suf)⟩ = ⟨v⟩ := by
  constructor
  · intro h
    rw [GetTxHashFromLog, txhashScan_no_occurrence s.data h]
  · rw [GetTxHashFromLog]
    show (match TxhashScan (p ++ TxhashLit ++ (mid ++ '"' :: v ++ '"' :: suf)) with
      | some cap => (⟨cap⟩ : String)
      | none => "") = ⟨v⟩
    rw [List.append_assoc, txhashScan_prepend p _ hp,
      txhashScan_at_lit mid v suf hm hv1 hv2 hs]

/-- Claim C8 witness: the amended theorem applied at an input without a
txhash field and at an input whose last quoted span is ABC123. -/
theorem getTxHashFromLog_spec_witness :
    GetTxHashFromLog "no txhash field here" = "" ∧
      GetTxHashFromLog "log: \"txhash\": \"ABC123\"" = "ABC123" := by
  constructor
  · exact (getTxHashFromLog_spec "no txhash field here" "log: ".data " ".data "ABC123".data
      "".data (by decide) (by decide) (by decide) (by decide) (by decide)).1 (by decide)
  · have h := (getTxHashFromLog_spec "no txhash field here" "log: ".data " ".data "ABC123".data
      "".data (by decide) (by decide) (by decide) (by decide) (by decide)).2
    have e1 : (⟨"log: ".data ++ TxhashLit ++
        (" ".data ++ '"' :: "ABC123".data ++ '"' :: "".data)⟩ : String)
        = "log: \"txhash\": \"ABC123\"" := by decide
    have e2 : (⟨"ABC123".data⟩ : String) = "ABC123" := by decide
    rw [e1, e2] at h
    exact h

/-- Unfolding step of WaitPoll at a failing status query. -/
theorem waitPoll_step_error (status : Nat → Except String Int) (target : Int)
    (fuel k : Nat) (e : String) (hs : status k = Except.error e) :
    WaitPoll status target (fuel + 1) k = (some e, k + 1) := by
  rw [WaitPoll, hs]

/-- Unfolding step of WaitPoll at a height that reaches the target. -/
theorem waitPoll_step_ok_ge (status : Nat → Except String Int) (target : Int)
    (fuel k : Nat) (h : Int) (hs : status k = Except.ok h) (ht : target ≤ h) :
    WaitPoll status target (fuel + 1) k = (none, k + 1) := by
  rw [WaitPoll, hs]
  exact if_pos ht

/-- Unfolding step of WaitPoll at a height still below the target. -/
theorem waitPoll_step_ok_lt (status : Nat → Except String Int) (target : Int)
    (fuel k : Nat) (h : Int) (hs : status k = Except.ok h) (ht : ¬ target ≤ h) :
    WaitPoll status target (fuel + 1) k = WaitPoll status target fuel (k + 1) := by
  rw [WaitPoll, hs]
  exact if_neg ht

/-- The loop performs at most fuel further polls beyond the k already done. -/
theorem waitPoll_poll_le (status : Nat → Except String Int) (target : Int) :
    ∀ fuel k, (WaitPoll status target fuel k).2 ≤ k + fuel := by
  intro fuel
  induction fuel with
  | zero => intro k; simp [WaitPoll]
  | succ n ih =>
    intro k
    cases hs : status k with
    | error e => rw [waitPoll_step_error status target n k e hs]; omega
    | ok h =>
      by_cases hc : target ≤ h
      · rw [waitPoll_step_ok_ge status target n k h hs hc]; omega
      · rw [waitPoll_step_ok_lt status target n k h hs hc]
        have := ih (k + 1)
        omega

/-- The loop returns nil right at the first in-range poll whose height
reaches the target, provided every earlier poll succeeded below it. -/
theorem waitPoll_success (status : Nat → Except String Int) (target : Int) :
    ∀ fuel k j hj, k ≤ j → j < k + fuel →
      (∀ i, k ≤ i → i < j → ∃ hi2, status i = Except.ok hi2 ∧ hi2 < target) →
      status j = Except.ok hj → target ≤ hj →
      WaitPoll status target fuel k = (none, j + 1) := by
  intro fuel
  induction fuel with
  | zero => intro k j hj h1 h2 _ _ _; omega
  | succ n ih =>
    intro k j hj h1 h2 hbefore hsj htj
    rcases Nat.eq_or_lt_of_le h1 with heq | hlt
    · subst heq
      rw [waitPoll_step_ok_ge status target n k hj hsj htj]
    · obtain ⟨hk, hsk, hklt⟩ := hbefore k le_rfl hlt
      rw [waitPoll_step_ok_lt status target n k hk hsk (by omega)]
      exact ih (k + 1) j hj hlt (by omega) (fun i hi1 hi2 => hbefore i (by omega) hi2) hsj htj

/-- The loop times out after consuming all its fuel when every in-range
poll succeeds below the target. -/
theorem waitPoll_timeout (status : Nat → Except String Int) (target : Int) :
    ∀ fuel k, (∀ i, k ≤ i → i < k + fuel → ∃ hi2, status i = Except.ok hi2 ∧ hi2 < target) →
      WaitPoll status target fuel k = (some WaitTimeoutMsg, k + fuel) := by
  intro fuel
  induction fuel with
  | zero => intro k _; simp [WaitPoll]
  | succ n ih =>
    intro k hall
    obtain ⟨hk, hsk, hklt⟩ := hall k le_rfl (by omega)
    rw [waitPoll_step_ok_lt status target n k hk hsk (by omega)]
    have heq : k + 1 + n = k + (n + 1) := by omega
    rw [ih (k + 1) (fun i h1 h2 => hall i (by omega) (by omega)), heq]

/-- The loop stops right at the first failing status query. -/
theorem waitPoll_error (status : Nat → Except String Int) (target : Int) :
    ∀ fuel k j e, k ≤ j → j < k + fuel → status j = Except.error e →
      (∀ i, k ≤ i → i < j → ∃ hi2, status i = Except.ok hi2 ∧ hi2 < target) →
      WaitPoll status target fuel k = (some e, j + 1) := by
  intro fuel
  induction fuel with
  | zero => intro k j e h1 h2 _ _; omega
  | succ n ih =>
    intro k j e h1 h2 hsj hbefore
    rcases Nat.eq_or_lt_of_le h1 with heq | hlt
    · subst heq
      rw [waitPoll_step_error status target n k e hsj]
    · obtain ⟨hk, hsk, hklt⟩ := hbefore k le_rfl hlt
      rw [waitPoll_step_ok_lt status target n k hk hsk (by omega)]
      exact ih (k + 1) j e hlt (by omega) hsj (fun i hi1 hi2 => hbefore i (by omega) hi2)

/-- Unfolding of WaitForBlockInterval when the initial status query fails. -/
theorem waitForBlockInterval_step_error (status : Nat → Except String Int) (interval : Int)
    (e : String) (hs : status 0 = Except.error e) :
    WaitForBlockInterval status interval = (some e, 1) := by
  rw [WaitForBlockInterval, hs]

/-- Unfolding of WaitForBlockInterval when the initial status query gives a
starting height. -/
theorem waitForBlockInterval_step_ok (status : Nat → Except String Int) (interval : Int)
    (h0 : Int) (hs : status 0 = Except.ok h0) :
    WaitForBlockInterval status interval =
      WaitPoll status (h0 + interval) (300 * interval - 1).toNat 1 := by
  rw [WaitForBlockInterval, hs]

/-- Claim C3: WaitForBlockInterval polls node status at most 300*interval
times; it returns nil right at the first poll within the cap whose height
reaches the initially observed height plus interval; when no poll within
the cap advances that far it returns the distinct timeout error after
exactly 300*interval polls; and whenever a status query fails — at the
initial poll or inside the loop — it returns that error immediately,
performing no further polls. -/
theorem waitForBlockInterval_spec (status : Nat → Except String Int) (interval : Int)
    (hIv : 1 ≤ interval) :
    ((WaitForBlockInterval status interval).2 ≤ (300 * interval).toNat) ∧
      (∀ h0 j hj, status 0 = Except.ok h0 → 1 ≤ j → j ≤ (300 * interval - 1).toNat →
        (∀ i, 1 ≤ i → i < j → ∃ hi2, status i = Except.ok hi2 ∧ hi2 < h0 + interval) →
        status j = Except.ok hj → h0 + interval ≤ hj →
        WaitForBlockInterval status interval = (none, j + 1)) ∧
      (∀ h0, status 0 = Except.ok h0 →
        (∀ i, 1 ≤ i → i ≤ (300 * interval - 1).toNat →
          ∃ hi2, status i = Except.ok hi2 ∧ hi2 < h0 + interval) →
        WaitForBlockInterval status interval =
          (some WaitTimeoutMsg, (300 * interval).toNat)) ∧
      (∀ e, status 0 = Except.error e → WaitForBlockInterval status interval = (some e, 1)) ∧
      (∀ h0 j e, status 0 = Except.ok h0 → 1 ≤ j → j ≤ (300 * interval - 1).toNat →
        status j = Except.error e →
        (∀ i, 1 ≤ i → i < j → ∃ hi2, status i = Except.ok hi2 ∧ hi2 < h0 + interval) →
        WaitForBlockInterval status interval = (some e, j + 1)) := by
  refine ⟨?_, ?_, ?_, ?_, ?_⟩
  · cases hs : status 0 with
    | error e =>
      rw [waitForBlockInterval_step_error status interval e hs]
      omega
    | ok h0 =>
      rw [waitForBlockInterval_step_ok status interval h0 hs]
      have := waitPoll_poll_le status (h0 + interval) ((300 * interval - 1).toNat) 1
      omega
  · intro h0 j hj hs0 hj1 hj2 hbefore hsj htj
    rw [waitForBlockInterval_step_ok status interval h0 hs0]
    exact waitPoll_success status (h0 + interval) _ 1 j hj hj1 (by omega) hbefore hsj htj
  · intro h0 hs0 hall
    rw [waitForBlockInterval_step_ok status interval h0 hs0]
    have heq : 1 + (300 * interval - 1).toNat = (300 * interval).toNat := by omega
    rw [waitPoll_timeout status (h0 + interval) ((300 * interval - 1).toNat) 1
      (fun i h1 h2 => hall i h1 (by omega)), heq]
  · intro e hs0
    exact waitForBlockInterval_step_error status interval e hs0
  · intro h0 j e hs0 hj1 hj2 hsj hbefore
    rw [waitForBlockInterval_step_ok status interval h0 hs0]
    exact waitPoll_error status (h0 + interval) _ 1 j e hj1 (by omega) hsj hbefore

/-- Claim C3 witness: on the status sequence that advances one block per
poll, waiting for one block interval succeeds at the second poll. -/
theorem waitForBlockInterval_spec_witness :
    (1 : Int) ≤ 1 ∧ WaitForBlockInterval StatusSeqAdvance 1 = (none, 2) :=
  ⟨by decide,
    (waitForBlockInterval_spec StatusSeqAdvance 1 (by decide)).2.1 0 1 1 rfl
      (by decide) (by norm_num) (fun i h1 h2 => absurd h2 (by omega)) rfl (by norm_num)⟩

end Inttest

end PylonsSdk
